import Mathlib

/-!
Shallow embedding of the log parsing and event-correlation engine of this
repository (log_analyzer.py and plot.py), with theorems settling the
behavioural claims about it.

Conventions of the embedding:
* strings are modelled as `List Char` (`Str`); concrete inputs are written
  with `String.toList`;
* timestamps flowing through the statistics and throughput code are modelled
  as exact rationals (`ℚ`), abstracting Python floats;
* Python dictionaries are association lists looked up at the first matching
  key, mirroring dict semantics (keys are unique in every dict-reachable
  value);
* the regular expression character classes `\d` and `\w` are modelled at the
  ASCII level (the log format is ASCII).
-/

abbrev Str := List Char

/-- The whitespace characters of Python's `str.split()` / `str.strip()`
(ASCII subset). -/
def pyIsSpace (c : Char) : Bool :=
  c = ' ' || c = '\t' || c = '\n' || c = '\r' || c = '\x0b' || c = '\x0c'

/-- Python `str.strip()`: drop whitespace from both ends. -/
def pyStrip (l : Str) : Str :=
  ((l.dropWhile pyIsSpace).reverse.dropWhile pyIsSpace).reverse

/-- Helper of `pySplit`: accumulates the current token reversed. -/
def pySplitAux : Str → Str → List Str
  | [], acc => if acc = [] then [] else [acc.reverse]
  | c :: cs, acc =>
    if pyIsSpace c then
      if acc = [] then pySplitAux cs [] else acc.reverse :: pySplitAux cs []
    else pySplitAux cs (c :: acc)

/-- Python `str.split()` with no argument: split on runs of whitespace,
never producing empty tokens. -/
def pySplit (l : Str) : List Str := pySplitAux l []

/-- `process_events` of log_analyzer.py, restricted to the
(event_name, request_id) pairs it forwards to `store_event`: the payload is
split on whitespace; exactly two tokens give the single pair
(token 0, token 1); otherwise, with at least one token, token 0 is the event
name and each later token is a request id (one token alone gives no pair);
no token gives no pair. -/
def process_events (event_info : Str) : List (Str × Str) :=
  match pySplit (pyStrip event_info) with
  | [event, request_id] => [(event, request_id)]
  | event :: rest => rest.map (fun request_id => (event, request_id))
  | [] => []

/-- C3: splitting the payload on whitespace, `process_events` yields the pair
(token 0, token 1) for exactly two tokens; the pairs (token 0, token i),
i = 1..N−1, for more than two tokens; no pair for a lone token; and no pair
for an empty token list. -/
theorem process_events_token_cases (payload : Str) :
    (∀ e i, pySplit (pyStrip payload) = [e, i] →
      process_events payload = [(e, i)]) ∧
    (∀ e rest, pySplit (pyStrip payload) = e :: rest →
      2 < (e :: rest).length →
      process_events payload = rest.map (fun i => (e, i))) ∧
    (∀ e, pySplit (pyStrip payload) = [e] → process_events payload = []) ∧
    (pySplit (pyStrip payload) = [] → process_events payload = []) := by
  refine ⟨?_, ?_, ?_, ?_⟩
  · intro e i h
    simp only [process_events, h]
  · intro e rest h hlen
    match rest, hlen with
    | r1 :: r2 :: rs, _ =>
      simp only [process_events, h]
  · intro e h
    simp only [process_events, h, List.map_nil]
  · intro h
    simp only [process_events, h]

/-- C3 at concrete inputs: the spec's worked examples. -/
theorem process_events_token_cases_witness :
    process_events "Enter req-1".toList
      = [("Enter".toList, "req-1".toList)] ∧
    process_events "Enter req-1 req-2 req-3".toList
      = [("Enter".toList, "req-1".toList), ("Enter".toList, "req-2".toList),
         ("Enter".toList, "req-3".toList)] ∧
    process_events "Enter".toList = [] ∧
    process_events "".toList = [] := by
  refine ⟨?_, ?_, ?_, ?_⟩
  · exact (process_events_token_cases "Enter req-1".toList).1
      "Enter".toList "req-1".toList (by decide)
  · exact ((process_events_token_cases "Enter req-1 req-2 req-3".toList).2.1
      "Enter".toList ["req-1".toList, "req-2".toList, "req-3".toList]
      (by decide) (by decide))
  · exact (process_events_token_cases "Enter".toList).2.2.1
      "Enter".toList (by decide)
  · exact (process_events_token_cases "".toList).2.2.2 (by decide)

/-- Association-list lookup at the first matching key (Python dict read). -/
def lookupA {α : Type} : List (Str × α) → Str → Option α
  | [], _ => none
  | (k, v) :: rest, key => if k = key then some v else lookupA rest key

/-- Python dict write `m[key] = v`: overwrite the first binding of `key` in
place, else append a new binding. -/
def setA {α : Type} : List (Str × α) → Str → α → List (Str × α)
  | [], key, v => [(key, v)]
  | (k, w) :: rest, key, v =>
    if k = key then (key, v) :: rest else (k, w) :: setA rest key v

/-- Apply `f` to the value of the first binding of `key`. -/
def updateFirst {α : Type} : List (Str × α) → Str → (α → α) → List (Str × α)
  | [], _, _ => []
  | (k, v) :: rest, key, f =>
    if k = key then (k, f v) :: rest else (k, v) :: updateFirst rest key f

/-- The RequestEventStore: request id → (event name → timestamp in seconds,
as an exact rational). -/
abbrev StoreQ := List (Str × List (Str × ℚ))

/-- `store_event` of log_analyzer.py: ensure an entry for `request_id`
exists, count a duplicate when `event` is already present for it, and store
`event ↦ timestamp` (last write wins). Returns the new store and the new
duplicate counter. -/
def store_event (request_data : StoreQ) (duplicate_count : Nat)
    (event request_id : Str) (timestamp : ℚ) : StoreQ × Nat :=
  let data1 := if (lookupA request_data request_id).isSome then request_data
               else request_data ++ [(request_id, [])]
  let events := (lookupA data1 request_id).getD []
  let dup := (lookupA events event).isSome
  (updateFirst data1 request_id (fun m => setA m event timestamp),
   if dup then duplicate_count + 1 else duplicate_count)

/-- The timestamp stored for `(request_id, event)`. -/
def lookupStore (request_data : StoreQ) (request_id event : Str) : Option ℚ :=
  (lookupA request_data request_id).bind (fun m => lookupA m event)

theorem lookupA_setA_self {α : Type} (m : List (Str × α)) (k : Str) (v : α) :
    lookupA (setA m k v) k = some v := by
  induction m with
  | nil => simp [setA, lookupA]
  | cons p rest ih =>
    obtain ⟨k', w⟩ := p
    by_cases h : k' = k
    · simp [setA, h, lookupA]
    · simp [setA, h, lookupA, ih]

theorem lookupA_updateFirst_self {α : Type} (d : List (Str × α)) (k : Str)
    (f : α → α) :
    lookupA (updateFirst d k f) k = (lookupA d k).map f := by
  induction d with
  | nil => simp [updateFirst, lookupA]
  | cons p rest ih =>
    obtain ⟨k', v⟩ := p
    by_cases h : k' = k
    · simp [updateFirst, h, lookupA]
    · simp [updateFirst, h, lookupA, ih]

theorem lookupA_append_none {α : Type} (d : List (Str × α)) (k : Str) (v : α)
    (h : lookupA d k = none) :
    lookupA (d ++ [(k, v)]) k = some v := by
  induction d with
  | nil => simp [lookupA]
  | cons p rest ih =>
    obtain ⟨k', w⟩ := p
    by_cases hk : k' = k
    · simp [lookupA, hk] at h
    · simp only [lookupA, hk, if_false, List.cons_append] at h ⊢
      exact ih h

/-- After `store_event`, the stored request entry exists. -/
theorem store_event_entry_isSome (request_data : StoreQ) (request_id : Str) :
    (lookupA (if (lookupA request_data request_id).isSome then request_data
              else request_data ++ [(request_id, [])]) request_id).isSome := by
  rcases h : lookupA request_data request_id with _ | m
  · simp only [h, Option.isSome_none, Bool.false_eq_true, if_false]
    rw [lookupA_append_none request_data request_id [] h]
    rfl
  · simp [h]

/-- After `store_event`, the new timestamp is the one stored for
`(request_id, event)`. -/
theorem store_event_lookup (request_data : StoreQ) (duplicate_count : Nat)
    (event request_id : Str) (timestamp : ℚ) :
    lookupStore (store_event request_data duplicate_count event request_id
      timestamp).1 request_id event = some timestamp := by
  unfold store_event lookupStore
  simp only []
  rw [lookupA_updateFirst_self]
  have h := store_event_entry_isSome request_data request_id
  rcases hd : lookupA (if (lookupA request_data request_id).isSome then
      request_data else request_data ++ [(request_id, [])]) request_id with _ | m
  · rw [hd] at h; simp at h
  · simp [Option.map, lookupA_setA_self]

/-- When `(request_id, event)` is already stored, `store_event` increments
the duplicate counter by exactly one. -/
theorem store_event_dup_increments (request_data : StoreQ)
    (duplicate_count : Nat) (event request_id : Str) (timestamp : ℚ)
    (h : (lookupStore request_data request_id event).isSome) :
    (store_event request_data duplicate_count event request_id timestamp).2
      = duplicate_count + 1 := by
  unfold lookupStore at h
  rcases hr : lookupA request_data request_id with _ | m
  · rw [hr] at h; simp at h
  · rw [hr] at h
    simp only [Option.bind] at h
    unfold store_event
    simp only [hr, Option.isSome_some, if_true, Option.getD_some, h, if_pos]

/-- C2: recording (event, request_id, T1) then (event, request_id, T2)
leaves T2 as the stored timestamp (last write wins) and increments the
duplicate counter by exactly one relative to the state after the first
record. -/
theorem store_event_last_write_wins (request_data : StoreQ)
    (duplicate_count : Nat) (event request_id : Str) (T1 T2 : ℚ) :
    lookupStore (store_event
        (store_event request_data duplicate_count event request_id T1).1
        (store_event request_data duplicate_count event request_id T1).2
        event request_id T2).1 request_id event = some T2 ∧
    (store_event
        (store_event request_data duplicate_count event request_id T1).1
        (store_event request_data duplicate_count event request_id T1).2
        event request_id T2).2
      = (store_event request_data duplicate_count event request_id T1).2
        + 1 := by
  constructor
  · exact store_event_lookup _ _ _ _ _
  · refine store_event_dup_increments _ _ _ _ _ ?_
    rw [store_event_lookup request_data duplicate_count event request_id T1]
    rfl

/-- `min` of a nonempty rational list (Python `min`); 0 on the empty list,
which the code never reaches. -/
def listMin : List ℚ → ℚ
  | [] => 0
  | x :: xs => xs.foldl min x

/-- `max` of a nonempty rational list (Python `max`); 0 on the empty list,
which the code never reaches. -/
def listMax : List ℚ → ℚ
  | [] => 0
  | x :: xs => xs.foldl max x

/-- `statistics.mean`: sum divided by length. -/
def listMean (l : List ℚ) : ℚ := l.sum / l.length

/-- Insert into a sorted list, keeping equal elements in order. -/
def insortQ (x : ℚ) : List ℚ → List ℚ
  | [] => [x]
  | y :: ys => if x ≤ y then x :: y :: ys else y :: insortQ x ys

/-- Sort a rational list ascending (insertion sort). -/
def sortQ (l : List ℚ) : List ℚ := l.foldr insortQ []

/-- `statistics.median`: middle element of the sorted list for odd length,
mean of the two middle elements for even length. -/
def listMedian (l : List ℚ) : ℚ :=
  let s := sortQ l
  let n := s.length
  if n % 2 = 1 then s.getD (n / 2) 0
  else (s.getD (n / 2 - 1) 0 + s.getD (n / 2) 0) / 2

/-- The sample variance (N−1 denominator): the square of
`statistics.stdev`. The statistics result stores this exact rational in
place of the real-valued standard deviation; the two are defined (present)
for exactly the same inputs. -/
def sampleVarQ (l : List ℚ) : ℚ :=
  (l.map (fun x => (x - listMean l) ^ 2)).sum / (l.length - 1 : ℕ)

/-- The dictionary `calculate_time_diffs_with_stats` returns when at least
one request id qualifies. `stdev` is present exactly when the code puts the
key in the dictionary (it holds the sample variance, see `sampleVarQ`). -/
structure PairStatResult where
  time_differences : List ℚ
  request_ids : List Str
  count : Nat
  min : ℚ
  max : ℚ
  mean : ℚ
  median : ℚ
  stdev : Option ℚ
deriving DecidableEq

/-- The loop of `calculate_time_diffs_with_stats`: every request id whose
event map holds both events contributes
(request_id, timestamp event2 − timestamp event1), in store order. -/
def qualifying_pairs (request_data : StoreQ) (event1 event2 : Str) :
    List (Str × ℚ) :=
  request_data.filterMap (fun p =>
    match lookupA p.2 event1, lookupA p.2 event2 with
    | some t1, some t2 => some (p.1, t2 - t1)
    | _, _ => none)

/-- `calculate_time_diffs_with_stats` of log_analyzer.py: `none` models the
empty dictionary returned when no request id qualifies; otherwise the
statistics over the signed time differences, with the standard-deviation
field present only for two samples or more. -/
def calculate_time_diffs_with_stats (request_data : StoreQ)
    (event1 event2 : Str) : Option PairStatResult :=
  let q := qualifying_pairs request_data event1 event2
  let time_differences := q.map Prod.snd
  if time_differences = [] then none
  else some {
    time_differences := time_differences
    request_ids := q.map Prod.fst
    count := time_differences.length
    min := listMin time_differences
    max := listMax time_differences
    mean := listMean time_differences
    median := listMedian time_differences
    stdev := if 1 < time_differences.length then
        some (sampleVarQ time_differences) else none }

/-- The (request_id, diff) pairs of a statistics result; none for the empty
result. -/
def resultPairs : Option PairStatResult → List (Str × ℚ)
  | none => []
  | some r => r.request_ids.zip r.time_differences

theorem mem_qualifying_pairs (request_data : StoreQ) (event1 event2 : Str)
    (rid : Str) (x : ℚ) :
    (rid, x) ∈ qualifying_pairs request_data event1 event2 ↔
    ∃ events t1 t2, (rid, events) ∈ request_data ∧
      lookupA events event1 = some t1 ∧ lookupA events event2 = some t2 ∧
      x = t2 - t1 := by
  unfold qualifying_pairs
  rw [List.mem_filterMap]
  constructor
  · rintro ⟨⟨rid', events⟩, hmem, hf⟩
    rcases h1 : lookupA events event1 with _ | t1 <;>
        rcases h2 : lookupA events event2 with _ | t2 <;>
      simp only [h1, h2] at hf <;>
        first
          | exact Option.noConfusion hf
          | (simp only [Option.some.injEq, Prod.mk.injEq] at hf
             obtain ⟨rfl, rfl⟩ := hf
             exact ⟨events, t1, t2, hmem, h1, h2, rfl⟩)
  · rintro ⟨events, t1, t2, hmem, h1, h2, rfl⟩
    exact ⟨(rid, events), hmem, by simp [h1, h2]⟩

/-- C9: the diff list of `calculate_time_diffs_with_stats` is built from
exactly the request ids having both events recorded, each diff being
timestamp(event2) − timestamp(event1), signed (negative diffs are
retained). -/
theorem time_diffs_signed_characterization (request_data : StoreQ)
    (event1 event2 : Str) (rid : Str) (x : ℚ) :
    (rid, x) ∈ resultPairs
        (calculate_time_diffs_with_stats request_data event1 event2) ↔
    ∃ events t1 t2, (rid, events) ∈ request_data ∧
      lookupA events event1 = some t1 ∧ lookupA events event2 = some t2 ∧
      x = t2 - t1 := by
  rw [← mem_qualifying_pairs]
  unfold calculate_time_diffs_with_stats
  by_cases h : (qualifying_pairs request_data event1 event2).map Prod.snd = []
  · rw [List.map_eq_nil_iff] at h
    simp [resultPairs, h]
  · simp only [h, if_neg, if_false, resultPairs]
    rw [List.zip_map']
    simp

/-- C1 (amended): over a populated store in which no request id has both
events recorded, `calculate_time_diffs_with_stats` returns the empty result
— the empty dictionary, which carries no fields at all (no count, min, max,
mean, median or stdev) — and this is a value, not an error. -/
theorem calculate_time_diffs_no_pairs (request_data : StoreQ)
    (event1 event2 : Str) (hpop : request_data ≠ [])
    (h : ∀ p ∈ request_data,
      ¬((lookupA p.2 event1).isSome ∧ (lookupA p.2 event2).isSome)) :
    calculate_time_diffs_with_stats request_data event1 event2 = none := by
  have hq : qualifying_pairs request_data event1 event2 = [] := by
    unfold qualifying_pairs
    rw [List.filterMap_eq_nil_iff]
    intro p hp
    rcases h1 : lookupA p.2 event1 with _ | t1
    · simp [h1]
    · rcases h2 : lookupA p.2 event2 with _ | t2
      · simp [h1, h2]
      · exact absurd ⟨by simp [h1], by simp [h2]⟩ (h p hp)
  simp [calculate_time_diffs_with_stats, hq]

/-- C1 as frozen is false: over the concrete store {r1 ↦ {A ↦ 0}} and the
pair (A, B), no request id has both events, and the result is the empty
dictionary — it has no `count` field at all, so no result with a count
field equal to 0 is returned. -/
theorem calculate_time_diffs_no_pairs_cex :
    calculate_time_diffs_with_stats [("r1".toList, [("A".toList, 0)])]
        "A".toList "B".toList = none ∧
    ¬ ∃ r, calculate_time_diffs_with_stats [("r1".toList, [("A".toList, 0)])]
        "A".toList "B".toList = some r ∧ r.count = 0 := by
  have hnone : calculate_time_diffs_with_stats
      [("r1".toList, [("A".toList, 0)])] "A".toList "B".toList = none := by
    decide
  refine ⟨hnone, ?_⟩
  rintro ⟨r, hr, -⟩
  rw [hnone] at hr
  exact Option.noConfusion hr

/-- C1's amended theorem at a concrete input. -/
theorem calculate_time_diffs_no_pairs_witness :
    calculate_time_diffs_with_stats [("r1".toList, [("A".toList, 0)])]
      "A".toList "C".toList = none :=
  calculate_time_diffs_no_pairs [("r1".toList, [("A".toList, 0)])]
    "A".toList "C".toList (by decide) (by decide)

/-- The standard-deviation field of the statistics dictionary is present
exactly when there are at least two samples. -/
theorem stdev_field_isSome_iff (l : List ℚ) :
    (if 1 < l.length then some (sampleVarQ l) else none).isSome ↔
      2 ≤ l.length := by
  by_cases h : 1 < l.length
  · rw [if_pos h]
    simp only [Option.isSome_some, true_iff]
    omega
  · rw [if_neg h]
    simp only [Option.isSome_none, Bool.false_eq_true, false_iff]
    omega

/-- C8: whenever at least one request id qualifies, the result carries a
sample standard deviation (N−1 denominator, here represented by the exact
sample variance) exactly when count ≥ 2; with count exactly 1 the single
diff is the min, max, mean and median, and the stdev field is absent. -/
theorem stats_single_and_stdev (request_data : StoreQ) (event1 event2 : Str)
    (r : PairStatResult)
    (h : calculate_time_diffs_with_stats request_data event1 event2 = some r) :
    (r.stdev.isSome ↔ 2 ≤ r.count) ∧
    (r.count = 1 → ∃ x, r.time_differences = [x] ∧ r.min = x ∧ r.max = x ∧
      r.mean = x ∧ r.median = x ∧ r.stdev = none) := by
  simp only [calculate_time_diffs_with_stats] at h
  by_cases hnil : (qualifying_pairs request_data event1 event2).map Prod.snd
      = []
  · rw [if_pos hnil] at h
    exact Option.noConfusion h
  · rw [if_neg hnil] at h
    injection h with h
    subst h
    constructor
    · exact stdev_field_isSome_iff _
    · intro hc
      replace hc : ((qualifying_pairs request_data event1 event2).map
          Prod.snd).length = 1 := hc
      obtain ⟨x, hx⟩ := List.length_eq_one.mp hc
      refine ⟨x, ?_⟩
      simp only [hx]
      refine ⟨trivial, rfl, rfl, ?_, ?_, ?_⟩
      · show listMean [x] = x
        simp [listMean]
      · show listMedian [x] = x
        simp [listMedian, sortQ, insortQ]
      · simp

/-- A one-request store: r1 saw A at 0 s and B at 5 s. -/
def singleStore : StoreQ := [("r1".toList, [("A".toList, 0), ("B".toList, 5)])]

/-- The statistics over `singleStore` for the pair (A, B). -/
def singleResult : PairStatResult :=
  ⟨[5], ["r1".toList], 1, 5, 5, 5, 5, none⟩

/-- Over `singleStore`, exactly one request id qualifies for (A, B). -/
theorem single_store_stats :
    calculate_time_diffs_with_stats singleStore "A".toList "B".toList
      = some singleResult := by
  simp [calculate_time_diffs_with_stats, qualifying_pairs, singleStore,
        singleResult, lookupA, listMin, listMax, listMean, listMedian,
        sortQ, insortQ]

/-- C8's theorem at a concrete one-request store. -/
theorem stats_single_and_stdev_witness :
    (singleResult.stdev.isSome ↔ 2 ≤ singleResult.count) ∧
    (singleResult.count = 1 → ∃ x, singleResult.time_differences = [x] ∧
      singleResult.min = x ∧ singleResult.max = x ∧
      singleResult.mean = x ∧ singleResult.median = x ∧
      singleResult.stdev = none) :=
  stats_single_and_stdev singleStore "A".toList "B".toList singleResult
    single_store_stats

/-- `calculate_throughput` of plot.py over the correlated
(enter_time, exit_time) intervals of one stage, times in milliseconds:
0 for no interval; otherwise requests divided by the observed span in
seconds, 0 when that span is not positive. -/
def calculate_throughput (latencies : List (ℚ × ℚ)) : ℚ :=
  if latencies = [] then 0
  else
    let start_time := listMin (latencies.map Prod.fst)
    let end_time := listMax (latencies.map Prod.snd)
    let total_time_seconds := (end_time - start_time) / 1000
    if total_time_seconds ≤ 0 then 0
    else (latencies.length : ℚ) / total_time_seconds

/-- C5: `calculate_throughput` returns 0 on the empty interval list and on a
non-positive span; on a positive span it returns the interval count divided
by (max exit − min enter), converted to the code's unit (milliseconds over
1000); on the spec's example it returns 3 / ((300 − 0) / 1000). Division by
zero is never reached: the positive-span branch is the only one that
divides. -/
theorem calculate_throughput_spec :
    calculate_throughput [] = 0 ∧
    (∀ l : List (ℚ × ℚ), l ≠ [] →
      (listMax (l.map Prod.snd) - listMin (l.map Prod.fst) ≤ 0 →
        calculate_throughput l = 0) ∧
      (0 < listMax (l.map Prod.snd) - listMin (l.map Prod.fst) →
        calculate_throughput l = (l.length : ℚ) /
          ((listMax (l.map Prod.snd) - listMin (l.map Prod.fst)) / 1000))) ∧
    calculate_throughput [(0, 100), (50, 150), (100, 300)]
      = 3 / ((300 - 0) / 1000) := by
  have hmain : ∀ l : List (ℚ × ℚ), l ≠ [] →
      (listMax (l.map Prod.snd) - listMin (l.map Prod.fst) ≤ 0 →
        calculate_throughput l = 0) ∧
      (0 < listMax (l.map Prod.snd) - listMin (l.map Prod.fst) →
        calculate_throughput l = (l.length : ℚ) /
          ((listMax (l.map Prod.snd) - listMin (l.map Prod.fst)) / 1000)) := by
    intro l hl
    constructor
    · intro hspan
      simp only [calculate_throughput, if_neg hl]
      rw [if_pos]
      exact div_nonpos_of_nonpos_of_nonneg hspan (by norm_num)
    · intro hspan
      simp only [calculate_throughput, if_neg hl]
      rw [if_neg]
      rw [not_le]
      exact div_pos hspan (by norm_num)
  have hmax : listMax (([((0 : ℚ), (100 : ℚ)), (50, 150),
      (100, 300)]).map Prod.snd) = 300 := by
    show max (max (100 : ℚ) 150) 300 = 300
    exact max_eq_right (max_le (by norm_num) (by norm_num))
  have hmin : listMin (([((0 : ℚ), (100 : ℚ)), (50, 150),
      (100, 300)]).map Prod.fst) = 0 := by
    show min (min (0 : ℚ) 50) 100 = 0
    rw [min_eq_left (by norm_num : (0 : ℚ) ≤ 50)]
    exact min_eq_left (by norm_num)
  refine ⟨rfl, hmain, ?_⟩
  have h3 := (hmain [(0, 100), (50, 150), (100, 300)] (by simp)).2
    (by rw [hmax, hmin]; norm_num)
  rw [h3, hmax, hmin]
  norm_num

/-- C5's theorem at concrete inputs: a zero-width span yields 0, and the
spec's example yields 3 requests over 0.3 s. -/
theorem calculate_throughput_spec_witness :
    calculate_throughput [(5, 5)] = 0 ∧
    calculate_throughput [(0, 100), (50, 150), (100, 300)]
      = 3 / ((300 - 0) / 1000) := by
  constructor
  · refine (calculate_throughput_spec.2.1 [(5, 5)] (by simp)).1 ?_
    show (5 : ℚ) - 5 ≤ 0
    norm_num
  · exact calculate_throughput_spec.2.2

/-- Python dict `del l[key]`: drop the binding for `key` (unique in every
dict-reachable list). -/
def removeA {α : Type} (l : List (Str × α)) (key : Str) : List (Str × α) :=
  l.filter (fun p => p.1 ≠ key)

theorem lookupA_removeA_self {α : Type} (l : List (Str × α)) (k : Str) :
    lookupA (removeA l k) k = none := by
  induction l with
  | nil => rfl
  | cons p rest ih =>
    obtain ⟨k', v⟩ := p
    by_cases h : k' = k
    · have hfil : removeA ((k', v) :: rest) k = removeA rest k := by
        simp [removeA, List.filter_cons, h]
      rw [hfil]
      exact ih
    · have hfil : removeA ((k', v) :: rest) k = (k', v) :: removeA rest k := by
        simp [removeA, List.filter_cons, h]
      rw [hfil]
      simp [lookupA, h, ih]

/-- One parsed entry of plot.py: stage name, action (Enter/Exit), request
id, and the entry's epoch time in milliseconds (the result of
`dt.timestamp() * 1000`, modelled as an exact rational). -/
structure LogEntry where
  step : Str
  action : Str
  id : Str
  time_ms : ℚ
deriving DecidableEq

/-- One correlated interval produced by `calculate_latencies`. -/
structure LatencyRecord where
  id : Str
  step : Str
  enter_time : ℚ
  exit_time : ℚ
  latency : ℚ
deriving DecidableEq

/-- The loop state of `calculate_latencies`: the one-slot-per-id pending
Enter map and the intervals emitted so far. -/
structure LatState where
  enter_events : List (Str × (ℚ × Str))
  latencies : List LatencyRecord
deriving DecidableEq

/-- One iteration of the loop of `calculate_latencies` in plot.py: an Enter
overwrites the pending slot of its id; an Exit with a pending Enter emits
the interval and clears the slot; any other entry (in particular an orphan
Exit) changes nothing. -/
def latStep (st : LatState) (e : LogEntry) : LatState :=
  if e.action = "Enter".toList then
    { st with enter_events := setA st.enter_events e.id (e.time_ms, e.step) }
  else if e.action = "Exit".toList then
    match lookupA st.enter_events e.id with
    | some (enter_time, step0) =>
      { enter_events := removeA st.enter_events e.id
        latencies := st.latencies ++
          [⟨e.id, step0, enter_time, e.time_ms, e.time_ms - enter_time⟩] }
    | none => st
  else st

/-- Stable insertion into a list sorted by enter time. -/
def insortLat (x : LatencyRecord) : List LatencyRecord → List LatencyRecord
  | [] => [x]
  | y :: ys => if x.enter_time ≤ y.enter_time then x :: y :: ys
               else y :: insortLat x ys

/-- `calculate_latencies` of plot.py: fold the entries through `latStep`
starting from no pending Enter and no interval, then sort the intervals by
enter time (Python's stable `sorted`). -/
def calculate_latencies (entries : List LogEntry) : List LatencyRecord :=
  ((entries.foldl latStep ⟨[], []⟩).latencies).foldr insortLat []

/-- The spec's Enter/Enter/Exit example for one id. -/
def exampleEntries : List LogEntry :=
  [⟨"S".toList, "Enter".toList, "1".toList, 0⟩,
   ⟨"S".toList, "Enter".toList, "1".toList, 5⟩,
   ⟨"S".toList, "Exit".toList, "1".toList, 10⟩]

/-- C6: the Enter/Exit correlation keeps one pending slot per id — an Enter
overwrites the pending slot of its id and emits nothing, an Exit with a
pending Enter emits the interval and clears the slot, an orphan Exit
changes nothing — and on the sequence Enter(1, 0), Enter(1, 5), Exit(1, 10)
the sole surviving interval is (5, 10) with latency 5. -/
theorem calculate_latencies_spec :
    (∀ (st : LatState) (e : LogEntry), e.action = "Enter".toList →
      lookupA (latStep st e).enter_events e.id = some (e.time_ms, e.step) ∧
      (latStep st e).latencies = st.latencies) ∧
    (∀ (st : LatState) (e : LogEntry) (t0 : ℚ) (s0 : Str),
      e.action = "Exit".toList →
      lookupA st.enter_events e.id = some (t0, s0) →
      (latStep st e).latencies = st.latencies ++
        [⟨e.id, s0, t0, e.time_ms, e.time_ms - t0⟩] ∧
      lookupA (latStep st e).enter_events e.id = none) ∧
    (∀ (st : LatState) (e : LogEntry), e.action = "Exit".toList →
      lookupA st.enter_events e.id = none → latStep st e = st) ∧
    calculate_latencies exampleEntries
      = [⟨"1".toList, "S".toList, 5, 10, 5⟩] := by
  refine ⟨?_, ?_, ?_, ?_⟩
  · intro st e he
    simp only [latStep, if_pos he]
    constructor
    · exact lookupA_setA_self _ _ _
    · trivial
  · intro st e t0 s0 he hp
    have hne : ¬(e.action = "Enter".toList) := by
      rw [he]; decide
    simp only [latStep, if_neg hne, if_pos he, hp]
    constructor
    · trivial
    · exact lookupA_removeA_self _ _
  · intro st e he hp
    have hne : ¬(e.action = "Enter".toList) := by
      rw [he]; decide
    simp only [latStep, if_neg hne, if_pos he, hp]
  · show ((exampleEntries.foldl latStep ⟨[], []⟩).latencies).foldr insortLat
        [] = [⟨"1".toList, "S".toList, 5, 10, 5⟩]
    simp [exampleEntries, latStep, setA, lookupA, removeA, insortLat]
    norm_num

/-- C6's step facts at concrete inputs, and the concrete example. -/
theorem calculate_latencies_spec_witness :
    (lookupA (latStep ⟨[], []⟩
        ⟨"S".toList, "Enter".toList, "1".toList, 3⟩).enter_events
        "1".toList = some (3, "S".toList) ∧
      (latStep ⟨[], []⟩
        ⟨"S".toList, "Enter".toList, "1".toList, 3⟩).latencies = []) ∧
    ((latStep ⟨[("1".toList, (3, "S".toList))], []⟩
        ⟨"S".toList, "Exit".toList, "1".toList, 9⟩).latencies
        = [] ++ [⟨"1".toList, "S".toList, 3, 9, 9 - 3⟩] ∧
      lookupA (latStep ⟨[("1".toList, (3, "S".toList))], []⟩
        ⟨"S".toList, "Exit".toList, "1".toList, 9⟩).enter_events
        "1".toList = none) ∧
    latStep ⟨[], []⟩ ⟨"S".toList, "Exit".toList, "2".toList, 4⟩ = ⟨[], []⟩ :=
  ⟨calculate_latencies_spec.1 ⟨[], []⟩
      ⟨"S".toList, "Enter".toList, "1".toList, 3⟩ rfl,
   calculate_latencies_spec.2.1 ⟨[("1".toList, (3, "S".toList))], []⟩
      ⟨"S".toList, "Exit".toList, "1".toList, 9⟩ 3 "S".toList rfl (by decide),
   calculate_latencies_spec.2.2.1 ⟨[], []⟩
      ⟨"S".toList, "Exit".toList, "2".toList, 4⟩ rfl rfl⟩

/-- The value of an ASCII digit. -/
def digitVal (c : Char) : Nat := c.toNat - 48

/-- `\w` of the full-record regex (ASCII): letters, digits, underscore. -/
def isWordChar (c : Char) : Bool := c.isAlphanum || c = '_'

/-- The Gregorian leap-year rule used by Python's `datetime`. -/
def isLeapYear (y : Nat) : Bool :=
  y % 4 == 0 && (y % 100 != 0 || y % 400 == 0)

/-- Days in a month, as validated by the `datetime` constructor. -/
def daysInMonth (y m : Nat) : Nat :=
  if m = 2 then (if isLeapYear y then 29 else 28)
  else if m = 4 ∨ m = 6 ∨ m = 9 ∨ m = 11 then 30
  else 31

/-- The numeric fields of a `YYYY-MM-DD HH:MM:SS,mmm` string when it has
exactly that shape — 23 characters, digits and the four literal separators
in place: (year, month, day, hour, minute, second, millisecond). -/
def tsFields (l : Str) :
    Option (Nat × Nat × Nat × Nat × Nat × Nat × Nat) :=
  match l with
  | [y1, y2, y3, y4, p1, o1, o2, p2, d1, d2, p3, h1, h2, p4, n1, n2, p5,
     e1, e2, p6, f1, f2, f3] =>
    if ([y1, y2, y3, y4, o1, o2, d1, d2, h1, h2, n1, n2, e1, e2, f1, f2,
         f3].all Char.isDigit) ∧ p1 = '-' ∧ p2 = '-' ∧ p3 = ' ' ∧
        p4 = ':' ∧ p5 = ':' ∧ p6 = ',' then
      some (digitVal y1 * 1000 + digitVal y2 * 100 + digitVal y3 * 10 +
              digitVal y4,
            digitVal o1 * 10 + digitVal o2,
            digitVal d1 * 10 + digitVal d2,
            digitVal h1 * 10 + digitVal h2,
            digitVal n1 * 10 + digitVal n2,
            digitVal e1 * 10 + digitVal e2,
            digitVal f1 * 100 + digitVal f2 * 10 + digitVal f3)
    else none
  | _ => none

/-- The textual shape of the regex group
`\d{4}-\d{2}-\d{2} \d{2}:\d{2}:\d{2},\d{3}`. -/
def tsShape (l : Str) : Bool := (tsFields l).isSome

/-- A parsed timestamp (date and time of day to the millisecond). -/
structure DateTime where
  year : Nat
  month : Nat
  day : Nat
  hour : Nat
  minute : Nat
  second : Nat
  millisecond : Nat
deriving DecidableEq

/-- `datetime.strptime(s, '%Y-%m-%d %H:%M:%S,%f')` on a string of the
timestamp shape: the parse succeeds exactly when the fields form a valid
calendar date-time (strptime's field ranges combined with the `datetime`
constructor's checks); a shape-valid string with an impossible field, such
as month 13, raises ValueError in the code and is `none` here. -/
def strptimeTs (l : Str) : Option DateTime :=
  match tsFields l with
  | none => none
  | some (y, mo, dy, h, mi, s, ms) =>
    if 1 ≤ y ∧ 1 ≤ mo ∧ mo ≤ 12 ∧ 1 ≤ dy ∧ dy ≤ daysInMonth y mo ∧
        h ≤ 23 ∧ mi ≤ 59 ∧ s ≤ 59 then
      some ⟨y, mo, dy, h, mi, s, ms⟩
    else none

/-- The full-record regex of log_analyzer.py,
`(\d{4}-\d{2}-\d{2} \d{2}:\d{2}:\d{2},\d{3}) - (\w+) - (.+)`, as a
deterministic parser over a newline-free line: the timestamp group is
fixed-width, and `\w+` can only be the maximal word run because the regex
then demands a space, which no shorter run can satisfy (the character after
a shorter run is a word character). Returns the three groups (timestamp
string, level, payload). -/
def match_full_line (l : Str) : Option (Str × Str × Str) :=
  if tsShape (l.take 23) then
    match l.drop 23 with
    | ' ' :: '-' :: ' ' :: rest =>
      match rest.dropWhile isWordChar with
      | ' ' :: '-' :: ' ' :: payload =>
        if rest.takeWhile isWordChar ≠ [] ∧ payload ≠ [] then
          some (l.take 23, rest.takeWhile isWordChar, payload)
        else none
      | _ => none
    | _ => none
  else none

/-- The carried per-file scan context of `process_file`: the last
successfully parsed timestamp and log level (`None` before any). -/
structure ScanState where
  last_timestamp : Option DateTime
  last_log_level : Option Str
deriving DecidableEq

/-- How one line is consumed: a full record, a continuation record
inheriting carried context, or skipped. -/
inductive LineOutcome where
  | full (dt : DateTime) (level payload : Str)
  | cont (dt : DateTime) (level payload : Str)
  | skip
deriving DecidableEq

/-- One iteration of the per-line loop of `process_file` in
log_analyzer.py, restricted to classification: a line matching the full
pattern with a parseable timestamp is a full record and updates the carried
timestamp/level; a matching line whose timestamp fails to parse is skipped
with the carried state untouched (the assignments are never reached); any
other line is a continuation with the carried context when both carried
values are truthy (a level is truthy when nonempty), else skipped. -/
def scanStep (st : ScanState) (line : Str) : ScanState × LineOutcome :=
  match match_full_line line with
  | some (timestamp_str, log_level, event_info) =>
    match strptimeTs timestamp_str with
    | some dt => (⟨some dt, some log_level⟩, .full dt log_level event_info)
    | none => (st, .skip)
  | none =>
    match st.last_timestamp, st.last_log_level with
    | some dt, some lvl =>
      if lvl = [] then (st, .skip) else (st, .cont dt lvl (pyStrip line))
    | _, _ => (st, .skip)

/-- The outcome of every line of a file scan, in order. -/
def scanLines (st : ScanState) : List Str → List LineOutcome
  | [] => []
  | line :: ls =>
    (scanStep st line).2 :: scanLines (scanStep st line).1 ls

/-- The carried context after scanning the given lines. -/
def stateAfter (st : ScanState) : List Str → ScanState
  | [] => st
  | line :: ls => stateAfter (scanStep st line).1 ls

/-- The timestamp and level of the most recent full record among the given
outcomes, if any. -/
def lastFullInfo : List LineOutcome → Option (DateTime × Str)
  | [] => none
  | r :: rs =>
    match lastFullInfo rs with
    | some x => some x
    | none =>
      match r with
      | .full dt lvl _ => some (dt, lvl)
      | _ => none

/-- C10: a line that matches the full-record shape but whose timestamp
fails to parse is skipped and leaves the carried timestamp and level
untouched, so later continuation lines still inherit the context of the
last successfully parsed full record. -/
theorem invalid_timestamp_preserves_carry (st : ScanState) (line : Str)
    (t lvl p : Str) (rest : List Str)
    (h1 : match_full_line line = some (t, lvl, p))
    (h2 : strptimeTs t = none) :
    scanStep st line = (st, LineOutcome.skip) ∧
    scanLines st (line :: rest) = LineOutcome.skip :: scanLines st rest ∧
    stateAfter st (line :: rest) = stateAfter st rest := by
  have hs : scanStep st line = (st, LineOutcome.skip) := by
    simp [scanStep, h1, h2]
  refine ⟨hs, ?_, ?_⟩
  · simp [scanLines, hs]
  · simp [stateAfter, hs]

/-- C10 at a concrete input: month 13 matches the shape, fails to parse,
and the carried context stays what it was. -/
theorem invalid_timestamp_preserves_carry_witness :
    scanStep ⟨none, none⟩
        "2024-13-01 00:00:00,000 - INFO - Enter r1".toList
      = (⟨none, none⟩, LineOutcome.skip) ∧
    scanLines ⟨none, none⟩
        ["2024-13-01 00:00:00,000 - INFO - Enter r1".toList]
      = LineOutcome.skip :: scanLines ⟨none, none⟩ [] ∧
    stateAfter ⟨none, none⟩
        ["2024-13-01 00:00:00,000 - INFO - Enter r1".toList]
      = stateAfter ⟨none, none⟩ [] :=
  invalid_timestamp_preserves_carry ⟨none, none⟩
    "2024-13-01 00:00:00,000 - INFO - Enter r1".toList
    "2024-13-01 00:00:00,000".toList "INFO".toList "Enter r1".toList []
    (by decide) (by decide)

theorem tsFields_length (l : Str) (h : (tsFields l).isSome = true) :
    l.length = 23 := by
  unfold tsFields at h
  split at h
  · rename_i y1 y2 y3 y4 p1 o1 o2 p2 d1 d2 p3 h1 h2 p4 n1 n2 p5 e1 e2 p6
      f1 f2 f3
    rfl
  · simp at h

theorem takeWhile_all_append (p : Char → Bool) (a b : Str)
    (ha : ∀ c ∈ a, p c = true)
    (hb : ∀ (c : Char) (t : Str), b = c :: t → p c = false) :
    (a ++ b).takeWhile p = a ∧ (a ++ b).dropWhile p = b := by
  induction a with
  | nil =>
    cases b with
    | nil => simp
    | cons c t =>
      have hc := hb c t rfl
      simp [List.takeWhile_cons, List.dropWhile_cons, hc]
  | cons x xs ih =>
    have hx : p x = true := ha x (by simp)
    have ihh := ih (fun c hc => ha c (by simp [hc]))
    simp [List.takeWhile_cons, List.dropWhile_cons, hx, ihh.1, ihh.2]

/-- C7 (amended): for every timestamp string of the shape
`YYYY-MM-DD HH:MM:SS,mmm` that moreover parses as a valid date-time, every
nonempty level of word characters, and every nonempty payload containing no
newline, classifying the constructed line `TIMESTAMP - LEVEL - PAYLOAD`
recovers exactly the three substrings: the regex groups are the constructed
substrings, and the line is classified as a full record carrying the parsed
timestamp, the level and the payload. -/
theorem classify_full_roundtrip (ts lvl payload : Str) (st : ScanState)
    (hshape : tsShape ts = true)
    (hvalid : (strptimeTs ts).isSome = true)
    (hlvl : lvl ≠ []) (hword : ∀ c ∈ lvl, isWordChar c = true)
    (hpay : payload ≠ []) (hnl : '\n' ∉ payload) :
    match_full_line
        (ts ++ ' ' :: '-' :: ' ' :: (lvl ++ ' ' :: '-' :: ' ' :: payload))
      = some (ts, lvl, payload) ∧
    ∀ dt, strptimeTs ts = some dt →
      scanStep st
          (ts ++ ' ' :: '-' :: ' ' :: (lvl ++ ' ' :: '-' :: ' ' :: payload))
        = (⟨some dt, some lvl⟩, LineOutcome.full dt lvl payload) := by
  have hlen : ts.length = 23 := tsFields_length ts hshape
  have htake : (ts ++ ' ' :: '-' :: ' ' ::
      (lvl ++ ' ' :: '-' :: ' ' :: payload)).take 23 = ts := by
    rw [← hlen]
    exact List.take_left _ _
  have hdrop : (ts ++ ' ' :: '-' :: ' ' ::
      (lvl ++ ' ' :: '-' :: ' ' :: payload)).drop 23
      = ' ' :: '-' :: ' ' :: (lvl ++ ' ' :: '-' :: ' ' :: payload) := by
    rw [← hlen]
    exact List.drop_left _ _
  have hsplit := takeWhile_all_append isWordChar lvl
    (' ' :: '-' :: ' ' :: payload) hword
    (by
      intro c t hct
      injection hct with hc ht
      rw [← hc]
      decide)
  have hmfl : match_full_line
      (ts ++ ' ' :: '-' :: ' ' :: (lvl ++ ' ' :: '-' :: ' ' :: payload))
      = some (ts, lvl, payload) := by
    unfold match_full_line
    rw [htake, hdrop, if_pos hshape]
    simp only [hsplit.1, hsplit.2]
    rw [if_pos ⟨hlvl, hpay⟩]
  refine ⟨hmfl, ?_⟩
  intro dt hdt
  simp [scanStep, hmfl, hdt]

/-- C7's amended round-trip at a concrete valid line. -/
theorem classify_full_roundtrip_witness :
    match_full_line
        ("2024-01-02 03:04:05,123".toList ++ ' ' :: '-' :: ' ' ::
          ("INFO".toList ++ ' ' :: '-' :: ' ' :: "Enter r1".toList))
      = some ("2024-01-02 03:04:05,123".toList, "INFO".toList,
          "Enter r1".toList) ∧
    scanStep ⟨none, none⟩
        ("2024-01-02 03:04:05,123".toList ++ ' ' :: '-' :: ' ' ::
          ("INFO".toList ++ ' ' :: '-' :: ' ' :: "Enter r1".toList))
      = (⟨some ⟨2024, 1, 2, 3, 4, 5, 123⟩, some "INFO".toList⟩,
         LineOutcome.full ⟨2024, 1, 2, 3, 4, 5, 123⟩ "INFO".toList
           "Enter r1".toList) :=
  ⟨(classify_full_roundtrip "2024-01-02 03:04:05,123".toList "INFO".toList
      "Enter r1".toList ⟨none, none⟩ (by decide) (by decide) (by decide)
      (by decide) (by decide) (by decide)).1,
   (classify_full_roundtrip "2024-01-02 03:04:05,123".toList "INFO".toList
      "Enter r1".toList ⟨none, none⟩ (by decide) (by decide) (by decide)
      (by decide) (by decide) (by decide)).2
     ⟨2024, 1, 2, 3, 4, 5, 123⟩ (by decide)⟩

/-- C7 as frozen is false: the timestamp string `2024-13-01 00:00:00,000`
has the required textual shape, the level `INFO` is word characters and the
payload `Enter r1` is nonempty without a newline, yet classifying the
constructed line does not produce a full record with those substrings —
the timestamp fails to parse (month 13) and the line is skipped. -/
theorem classify_full_roundtrip_cex :
    scanStep ⟨none, none⟩
        "2024-13-01 00:00:00,000 - INFO - Enter r1".toList
      = (⟨none, none⟩, LineOutcome.skip) ∧
    tsShape "2024-13-01 00:00:00,000".toList = true ∧
    ("2024-13-01 00:00:00,000".toList ++ ' ' :: '-' :: ' ' ::
        ("INFO".toList ++ ' ' :: '-' :: ' ' :: "Enter r1".toList))
      = "2024-13-01 00:00:00,000 - INFO - Enter r1".toList ∧
    ¬ ∃ dt, scanStep ⟨none, none⟩
        "2024-13-01 00:00:00,000 - INFO - Enter r1".toList
      = (⟨some dt, some "INFO".toList⟩,
         LineOutcome.full dt "INFO".toList "Enter r1".toList) := by
  have hs : scanStep ⟨none, none⟩
      "2024-13-01 00:00:00,000 - INFO - Enter r1".toList
      = (⟨none, none⟩, LineOutcome.skip) := by decide
  refine ⟨hs, by decide, by decide, ?_⟩
  rintro ⟨dt, hdt⟩
  rw [hs] at hdt
  have h2 := congrArg Prod.snd hdt
  exact LineOutcome.noConfusion h2

theorem scanLines_append (st : ScanState) (xs ys : List Str) :
    scanLines st (xs ++ ys)
      = scanLines st xs ++ scanLines (stateAfter st xs) ys := by
  induction xs generalizing st with
  | nil => rfl
  | cons x xs ih =>
    have h1 : scanLines st ((x :: xs) ++ ys)
        = (scanStep st x).2 :: scanLines (scanStep st x).1 (xs ++ ys) := rfl
    have h2 : scanLines st (x :: xs)
        = (scanStep st x).2 :: scanLines (scanStep st x).1 xs := rfl
    have h3 : stateAfter st (x :: xs) = stateAfter (scanStep st x).1 xs := rfl
    rw [h1, h2, h3, ih, List.cons_append]

/-- On a line with no full-record match, the carried state is unchanged and
the outcome is never a full record. -/
theorem scanStep_not_full (st : ScanState) (line : Str)
    (hm : match_full_line line = none) :
    (scanStep st line).1 = st ∧
    ∀ dt lvl p, (scanStep st line).2 ≠ LineOutcome.full dt lvl p := by
  obtain ⟨ts0, lv0⟩ := st
  simp only [scanStep, hm]
  rcases ts0 with _ | dt0 <;> rcases lv0 with _ | lvl0 <;> simp
  by_cases h : lvl0 = [] <;> simp [h]

theorem scanStep_of_full (st : ScanState) (line t lvl p : Str)
    (dt : DateTime) (hm : match_full_line line = some (t, lvl, p))
    (hp : strptimeTs t = some dt) :
    scanStep st line = (⟨some dt, some lvl⟩, LineOutcome.full dt lvl p) := by
  simp [scanStep, hm, hp]

/-- A full outcome always comes from a successful full-record match. -/
theorem scanStep_full_inv (st : ScanState) (line : Str) (dt : DateTime)
    (lvl p : Str)
    (h : (scanStep st line).2 = LineOutcome.full dt lvl p) :
    ∃ t, match_full_line line = some (t, lvl, p) ∧
      strptimeTs t = some dt := by
  rcases hm : match_full_line line with _ | ⟨t, lvl', p'⟩
  · exact absurd h ((scanStep_not_full st line hm).2 dt lvl p)
  · rcases hp : strptimeTs t with _ | dt'
    · have hs : scanStep st line = (st, LineOutcome.skip) := by
        simp [scanStep, hm, hp]
      rw [hs] at h
      exact LineOutcome.noConfusion h
    · rw [scanStep_of_full st line t lvl' p' dt' hm hp] at h
      cases h
      exact ⟨t, rfl, hp⟩

/-- The three regex groups of a matched line: the level and payload groups
are nonempty. -/
theorem match_full_line_parts (l t lvl p : Str)
    (h : match_full_line l = some (t, lvl, p)) : lvl ≠ [] ∧ p ≠ [] := by
  unfold match_full_line at h
  split at h
  · split at h
    · split at h
      · split at h
        · rename_i hcond
          injection h with h'
          injection h' with h1 h23
          injection h23 with h2 h3
          subst h2; subst h3
          exact hcond
        · exact Option.noConfusion h
      · exact Option.noConfusion h
    · exact Option.noConfusion h
  · exact Option.noConfusion h

theorem lastFullInfo_cons_nonfull (r : LineOutcome) (rs : List LineOutcome)
    (h : ∀ dt lvl p, r ≠ LineOutcome.full dt lvl p) :
    lastFullInfo (r :: rs) = lastFullInfo rs := by
  rcases r with ⟨dt, lvl, p⟩ | ⟨dt, lvl, p⟩ | _
  · exact absurd rfl (h dt lvl p)
  all_goals
    rcases hl : lastFullInfo rs with _ | x <;>
      first
        | rfl
        | simp [lastFullInfo, hl]

theorem lastFullInfo_cons_full (dt : DateTime) (lvl p : Str)
    (rs : List LineOutcome) :
    lastFullInfo (LineOutcome.full dt lvl p :: rs)
      = match lastFullInfo rs with
        | some x => some x
        | none => some (dt, lvl) := rfl

/-- The carried state after a scan is exactly the timestamp and level of
the most recent full record of that scan, or the starting state when the
scan saw none. -/
theorem stateAfter_lastFullInfo (lines : List Str) (st : ScanState) :
    stateAfter st lines =
      match lastFullInfo (scanLines st lines) with
      | some (dt, lvl) => ⟨some dt, some lvl⟩
      | none => st := by
  induction lines generalizing st with
  | nil => rfl
  | cons line ls ih =>
    have hsa : stateAfter st (line :: ls)
        = stateAfter (scanStep st line).1 ls := rfl
    have hsl : scanLines st (line :: ls)
        = (scanStep st line).2 :: scanLines (scanStep st line).1 ls := rfl
    rw [hsa, hsl, ih]
    rcases hm : match_full_line line with _ | ⟨⟨t, lvl, p⟩⟩
    · have h1 := (scanStep_not_full st line hm).1
      have h2 := (scanStep_not_full st line hm).2
      rw [h1, lastFullInfo_cons_nonfull _ _ h2]
    · rcases hp : strptimeTs t with _ | dt0
      · have hs : scanStep st line = (st, LineOutcome.skip) := by
          simp [scanStep, hm, hp]
        simp only [hs]
        rw [lastFullInfo_cons_nonfull _ _
          (fun dt lvl p h => LineOutcome.noConfusion h)]
      · have hs := scanStep_of_full st line t lvl p dt0 hm hp
        simp only [hs]
        rw [lastFullInfo_cons_full]
        rcases hl : lastFullInfo
            (scanLines (⟨some dt0, some lvl⟩ : ScanState) ls)
          with _ | ⟨⟨dt', lvl'⟩⟩ <;> simp only [hl]

/-- Every full record of a scan carries a nonempty level (the regex's `\w+`
group), so the carried level is truthy whenever it is set. -/
theorem lastFullInfo_level_ne_nil (lines : List Str) :
    ∀ (st : ScanState) (dt : DateTime) (lvl : Str),
      lastFullInfo (scanLines st lines) = some (dt, lvl) → lvl ≠ [] := by
  induction lines with
  | nil =>
    intro st dt lvl h
    exact absurd h (by simp [scanLines, lastFullInfo])
  | cons line ls ih =>
    intro st dt lvl h
    have hsl : scanLines st (line :: ls)
        = (scanStep st line).2 :: scanLines (scanStep st line).1 ls := rfl
    rw [hsl] at h
    rcases hl : lastFullInfo (scanLines (scanStep st line).1 ls)
      with _ | ⟨⟨dt', lvl'⟩⟩
    · rcases hr : (scanStep st line).2 with ⟨dt'', lvl'', p''⟩ | ⟨_, _, _⟩ | _
      · have hfull : lastFullInfo ((scanStep st line).2 ::
            scanLines (scanStep st line).1 ls) = some (dt'', lvl'') := by
          rw [hr, lastFullInfo_cons_full, hl]
        rw [hfull] at h
        injection h with h'
        injection h' with ha hb
        subst hb
        obtain ⟨t, hmf, -⟩ := scanStep_full_inv st line dt'' lvl'' p'' hr
        exact (match_full_line_parts line t lvl'' p'' hmf).1
      · rw [lastFullInfo_cons_nonfull _ _
            (by rw [hr]; intro a b c hc; exact LineOutcome.noConfusion hc),
          hl] at h
        exact Option.noConfusion h
      · rw [lastFullInfo_cons_nonfull _ _
            (by rw [hr]; intro a b c hc; exact LineOutcome.noConfusion hc),
          hl] at h
        exact Option.noConfusion h
    · have hsome : lastFullInfo ((scanStep st line).2 ::
          scanLines (scanStep st line).1 ls) = some (dt', lvl') := by
        rcases hr : (scanStep st line).2 with ⟨a, b, c⟩ | ⟨a, b, c⟩ | _ <;>
          simp [lastFullInfo, hl]
      rw [hsome] at h
      injection h with h'
      injection h' with ha hb
      subst hb
      exact ih _ dt' lvl' hl

theorem scanStep_cont (dt : DateTime) (lvl : Str) (line : Str)
    (hm : match_full_line line = none) (hlvl : lvl ≠ []) :
    scanStep ⟨some dt, some lvl⟩ line
      = (⟨some dt, some lvl⟩, LineOutcome.cont dt lvl (pyStrip line)) := by
  simp [scanStep, hm, hlvl]

theorem scanStep_noctx (line : Str) (hm : match_full_line line = none) :
    scanStep ⟨none, none⟩ line = (⟨none, none⟩, LineOutcome.skip) := by
  simp [scanStep, hm]

/-- C4: within one file scan started with no carried context, a line that
does not match the full-record pattern is consumed as a continuation record
if and only if some full record was already parsed earlier in the scan, and
it inherits exactly the timestamp and level of the most recent such full
record; before any full record, the line is skipped. -/
theorem continuation_requires_prior_full (pre : List Str) (line : Str)
    (hm : match_full_line line = none) :
    scanLines ⟨none, none⟩ (pre ++ [line]) =
      scanLines ⟨none, none⟩ pre ++
        [match lastFullInfo (scanLines ⟨none, none⟩ pre) with
         | some (dt, lvl) => LineOutcome.cont dt lvl (pyStrip line)
         | none => LineOutcome.skip] := by
  rw [scanLines_append]
  congr 1
  rw [stateAfter_lastFullInfo]
  cases hl : lastFullInfo (scanLines ⟨none, none⟩ pre) with
  | none =>
    simp only []
    show scanLines ⟨none, none⟩ [line] = [LineOutcome.skip]
    simp [scanLines, scanStep_noctx line hm]
  | some x =>
    obtain ⟨dt, lvl⟩ := x
    have hlvl : lvl ≠ [] := lastFullInfo_level_ne_nil pre _ dt lvl hl
    simp only []
    show scanLines ⟨some dt, some lvl⟩ [line]
        = [LineOutcome.cont dt lvl (pyStrip line)]
    simp [scanLines, scanStep_cont dt lvl line hm hlvl]

/-- C4 at a concrete scan: after one full record, a non-matching line is a
continuation inheriting that record's timestamp and level; the same line as
the first line of a file is skipped. -/
theorem continuation_requires_prior_full_witness :
    scanLines ⟨none, none⟩
        (["2024-01-02 03:04:05,123 - INFO - Enter r1".toList] ++
          ["noise line".toList]) =
      scanLines ⟨none, none⟩
          ["2024-01-02 03:04:05,123 - INFO - Enter r1".toList] ++
        [match lastFullInfo (scanLines ⟨none, none⟩
            ["2024-01-02 03:04:05,123 - INFO - Enter r1".toList]) with
         | some (dt, lvl) =>
            LineOutcome.cont dt lvl (pyStrip "noise line".toList)
         | none => LineOutcome.skip] ∧
    scanLines ⟨none, none⟩ ([] ++ ["noise line".toList]) =
      scanLines ⟨none, none⟩ [] ++
        [match lastFullInfo (scanLines ⟨none, none⟩ []) with
         | some (dt, lvl) =>
            LineOutcome.cont dt lvl (pyStrip "noise line".toList)
         | none => LineOutcome.skip] :=
  ⟨continuation_requires_prior_full
      ["2024-01-02 03:04:05,123 - INFO - Enter r1".toList]
      "noise line".toList (by decide),
   continuation_requires_prior_full [] "noise line".toList (by decide)⟩
